import Mathlib

/-!
Verification of the citation-tree core of the ResearchHub repository.

The definitions below are a shallow embedding of the TypeScript sources:
  - CitationService.buildCitationTree, getTreeStatistics, flattenTree and
    countNodes (services/citationService.ts, the version with the
    depth-0 citations asymmetry, defaults maxDepth = 5, maxRefs = 5);
  - SemanticScholarAPI.withRetry (services/academicApiService.ts);
  - CitationController.buildTree (controllers/CitationController.ts);
  - PaperRepository.savePaper and savePapers (repositories/paperRepository.ts).

Modelling conventions:
  - JavaScript arrays that may hold non-string members are embedded as
    lists of MetaEntry, where MetaEntry.nonString stands for any member
    that is not a string.
  - A record field that may be undefined is an Option; the pattern
    x || [] of the source corresponds to Option.getD with default [].
  - Promises and awaits carry no information once timing is erased, so
    asynchronous functions become pure functions; Promise.all followed by
    filter(Boolean) over the child builds becomes List.filterMap in the
    same candidate order.
  - A thrown JavaScript exception is an absent result: the paper store
    and the remote fetch return sum types with an explicit error case.
  - The recursion of buildCitationTree is bounded by the source check
    depth >= maxDepth.  It is embedded structurally over the quantity
    remaining = maxDepth - depth, and the wrapper buildCitationTree
    restores the exact source signature; the lemma
    buildCitationTree_unfold shows that the wrapper satisfies the
    literal recursion of the source, with the depth >= maxDepth guard.
  - JavaScript floating-point division in getTreeStatistics is embedded
    as exact division in the rationals.
-/

/-- One member of the meta_data.references or meta_data.citations array:
either a JavaScript string or any non-string value (the source filters
the latter out with a typeof check). -/
inductive MetaEntry where
  | str (s : String)
  | nonString
deriving DecidableEq, Repr

/-- The DbPaper row shape returned by PaperRepository (the fields the
citation service reads).  metaRefs and metaCites embed
meta_data.references and meta_data.citations, each possibly undefined. -/
structure DbPaper where
  id : String
  title : String
  citation_count : Nat
  metaRefs : Option (List MetaEntry)
  metaCites : Option (List MetaEntry)
deriving DecidableEq, Repr

/-- Outcome of paperRepo.getPaperById: a row, no row, or a thrown
error (the repository throws when the database query fails). -/
inductive StoreResult where
  | found (p : DbPaper)
  | missing
  | err
deriving DecidableEq, Repr

/-- The external collaborators of one tree build: the paper store lookup
and the composite remote step semanticScholarAPI.getPaperById followed by
paperRepo.savePaper.  fetchSave id = some p means the fetch succeeded and
p is the upserted row the service continues with; none means the fetch or
the save threw. -/
structure Env where
  store : String → StoreResult
  fetchSave : String → Option DbPaper

/-- A well-formed environment: the store is keyed by id (select where
id equals the argument) and the remote provider returns the requested
paper, so a resolved record carries the requested id. -/
def ConsistentEnv (env : Env) : Prop :=
  ∀ pid : String,
    (∀ p : DbPaper, env.store pid = StoreResult.found p → p.id = pid) ∧
    (∀ p : DbPaper, env.fetchSave pid = some p → p.id = pid)

/-- CitationTreeOptions with each field possibly undefined, as in the
source interface. -/
structure CitationTreeOptions where
  maxDepth : Option Nat
  maxReferencesPerLevel : Option Nat
  includeMetrics : Option Bool
deriving DecidableEq, Repr

/-- Destructuring default maxDepth = this.DEFAULT_MAX_DEPTH = 5. -/
def maxDepthOf (o : CitationTreeOptions) : Nat := o.maxDepth.getD 5

/-- Destructuring default maxReferencesPerLevel = DEFAULT_MAX_REFS = 5. -/
def maxRefsOf (o : CitationTreeOptions) : Nat := o.maxReferencesPerLevel.getD 5

/-- Destructuring default includeMetrics = false. -/
def includeMetricsOf (o : CitationTreeOptions) : Bool := o.includeMetrics.getD false

/-- The CitationTreeNode of the source: paper, expanded children in the
references field, the depth at which the node was built, and the
optional totalNodes metric. -/
inductive CitationTreeNode where
  | mk (paper : DbPaper) (references : List CitationTreeNode)
       (depth : Nat) (totalNodes : Option Nat)

/-- Projection to the paper field. -/
def CitationTreeNode.paper : CitationTreeNode → DbPaper
  | .mk p _ _ _ => p

/-- Projection to the references field. -/
def CitationTreeNode.references : CitationTreeNode → List CitationTreeNode
  | .mk _ refs _ _ => refs

/-- Projection to the depth field. -/
def CitationTreeNode.depth : CitationTreeNode → Nat
  | .mk _ _ d _ => d

/-- Projection to the totalNodes field. -/
def CitationTreeNode.totalNodes : CitationTreeNode → Option Nat
  | .mk _ _ _ tn => tn

mutual

/-- CitationService.countNodes: 1 plus the node counts of the children. -/
def countNodes : CitationTreeNode → Nat
  | .mk _ refs _ _ => 1 + countNodesList refs

/-- Sum of countNodes over a list of children (the reduce of the source). -/
def countNodesList : List CitationTreeNode → Nat
  | [] => 0
  | t :: ts => countNodes t + countNodesList ts

end

mutual

/-- All nodes of a tree, the node itself first (pre-order). -/
def treeNodes : CitationTreeNode → List CitationTreeNode
  | .mk p refs d tn => CitationTreeNode.mk p refs d tn :: treeNodesList refs

/-- All nodes of a list of trees, in order. -/
def treeNodesList : List CitationTreeNode → List CitationTreeNode
  | [] => []
  | t :: ts => treeNodes t ++ treeNodesList ts

end

mutual

/-- Height of a tree: greatest traversal distance from the root to a
node, 0 for a leaf. -/
def treeHeight : CitationTreeNode → Nat
  | .mk _ refs _ _ => treeHeightList refs

/-- One plus the greatest height among a list of children, 0 when empty. -/
def treeHeightList : List CitationTreeNode → Nat
  | [] => 0
  | t :: ts => max (1 + treeHeight t) (treeHeightList ts)

end

mutual

/-- Sum over all nodes of the length of the references list. -/
def sumRefLens : CitationTreeNode → Nat
  | .mk _ refs _ _ => refs.length + sumRefLensList refs

/-- Sum of sumRefLens over a list of trees. -/
def sumRefLensList : List CitationTreeNode → Nat
  | [] => 0
  | t :: ts => sumRefLens t + sumRefLensList ts

end

mutual

/-- Sum over all nodes of paper.citation_count. -/
def sumCitations : CitationTreeNode → Nat
  | .mk p refs _ _ => p.citation_count + sumCitationsList refs

/-- Sum of sumCitations over a list of trees. -/
def sumCitationsList : List CitationTreeNode → Nat
  | [] => 0
  | t :: ts => sumCitations t + sumCitationsList ts

end

mutual

/-- Path distinctness: no node of the tree carries a paper id that
already occurs among its ancestors (the ancestors argument), and hence no
paper id occurs twice on any root-to-node path. -/
def pathOk (ancestors : List String) : CitationTreeNode → Bool
  | .mk p refs _ _ =>
      !(ancestors.contains p.id) && pathOkList (p.id :: ancestors) refs

/-- pathOk over a list of sibling subtrees with a common ancestor path. -/
def pathOkList (ancestors : List String) : List CitationTreeNode → Bool
  | [] => true
  | t :: ts => pathOk ancestors t && pathOkList ancestors ts

end

/-- One element of the array produced by CitationService.flattenTree. -/
structure FlatEntry where
  paperId : String
  title : String
  depth : Nat
  parentId : Option String
  citationCount : Nat
deriving DecidableEq, Repr

mutual

/-- The inner traverse of CitationService.flattenTree: push the entry for
the node, then traverse the children in order, each with this node's
paper id as parentId. -/
def flattenTraverse (node : CitationTreeNode) (parentId : Option String) :
    List FlatEntry :=
  match node with
  | .mk p refs d _ =>
      { paperId := p.id, title := p.title, depth := d,
        parentId := parentId, citationCount := p.citation_count } ::
        flattenChildren refs p.id

/-- Traversal of the children of a node: the pushes of each child
subtree in sibling order, parentId being the id of the parent paper. -/
def flattenChildren (refs : List CitationTreeNode) (pid : String) :
    List FlatEntry :=
  match refs with
  | [] => []
  | t :: ts => flattenTraverse t (some pid) ++ flattenChildren ts pid

end

/-- CitationService.flattenTree: the root traversal starts with an
undefined parentId. -/
def flattenTree (tree : CitationTreeNode) : List FlatEntry :=
  flattenTraverse tree none

/-- The mutable accumulator of CitationService.getTreeStatistics. -/
structure StatsAcc where
  totalNodes : Nat
  maxDepth : Nat
  totalReferences : Nat
  totalCitations : Nat
deriving DecidableEq, Repr

mutual

/-- The inner traverse of getTreeStatistics: bump the counters for this
node, then traverse the children at depth + 1. -/
def statsTraverse (node : CitationTreeNode) (depth : Nat) (acc : StatsAcc) :
    StatsAcc :=
  match node with
  | .mk p refs _ _ =>
      statsChildren refs (depth + 1)
        { totalNodes := acc.totalNodes + 1,
          maxDepth := max acc.maxDepth depth,
          totalReferences := acc.totalReferences + refs.length,
          totalCitations := acc.totalCitations + p.citation_count }

/-- forEach over the children, threading the accumulator left to right. -/
def statsChildren (refs : List CitationTreeNode) (depth : Nat)
    (acc : StatsAcc) : StatsAcc :=
  match refs with
  | [] => acc
  | t :: ts => statsChildren ts depth (statsTraverse t depth acc)

end

/-- The record returned by getTreeStatistics.  averageReferences is a
JavaScript float division; it is embedded as exact rational division. -/
structure TreeStatistics where
  totalNodes : Nat
  maxDepth : Nat
  averageReferences : ℚ
  totalCitations : Nat
deriving DecidableEq, Repr

/-- CitationService.getTreeStatistics: run the traversal from depth 0 on
zeroed counters, then divide, guarding the zero-node case. -/
def getTreeStatistics (tree : CitationTreeNode) : TreeStatistics :=
  let stats := statsTraverse tree 0
    { totalNodes := 0, maxDepth := 0, totalReferences := 0, totalCitations := 0 }
  { totalNodes := stats.totalNodes,
    maxDepth := stats.maxDepth,
    averageReferences :=
      if stats.totalNodes > 0 then
        (stats.totalReferences : ℚ) / (stats.totalNodes : ℚ)
      else 0,
    totalCitations := stats.totalCitations }

/-- Outcome of the node-resolution step of buildCitationTree
(lines 44-83 of the service): every branch of the store-then-remote
logic, tagged.  fresh p: the remote was fetched and the upserted row p
is used.  stale p: the store row p lacked references, the fetch threw,
and the service continues with p.  cached p: the store row p already had
a nonempty references array, no fetch.  deadEnd: no store row and the
fetch threw, the branch returns null.  storeThrew: getPaperById threw,
the outer catch of the service returns null. -/
inductive Resolution where
  | fresh (p : DbPaper)
  | stale (p : DbPaper)
  | cached (p : DbPaper)
  | deadEnd
  | storeThrew
deriving DecidableEq, Repr

/-- The paper the build continues with, if any. -/
def Resolution.paper : Resolution → Option DbPaper
  | .fresh p => some p
  | .stale p => some p
  | .cached p => some p
  | .deadEnd => none
  | .storeThrew => none

/-- The stale test of line 47: paper exists but
!paper.meta_data?.references || paper.meta_data.references.length === 0,
that is the references array is undefined or empty. -/
def missingRefs (p : DbPaper) : Bool := (p.metaRefs.getD []).isEmpty

/-- Node resolution of buildCitationTree, lines 44-83: store first; on a
row without references, refetch and upsert, keeping the stale row if the
fetch throws; on a missing row, fetch and upsert, dropping the branch if
the fetch throws; a store exception propagates to the outer catch. -/
def resolvePaper (env : Env) (pid : String) : Resolution :=
  match env.store pid with
  | .err => .storeThrew
  | .found p =>
      if missingRefs p then
        match env.fetchSave pid with
        | some saved => .fresh saved
        | none => .stale p
      else .cached p
  | .missing =>
      match env.fetchSave pid with
      | some saved => .fresh saved
      | none => .deadEnd

/-- The filter of line 90: keep an entry when it is a string whose trim
is nonempty, and project to that string.  A trimmed string is empty
exactly when every character is whitespace, which is how the test is
embedded (String.trim itself does not reduce in the kernel). -/
def entryId : MetaEntry → Option String
  | .str s => if s.toList.all Char.isWhitespace then none else some s
  | .nonString => none

/-- Body of CitationService.buildCitationTree, lines 28-113, embedded
structurally over remaining = maxDepth - depth (zero exactly when the
source guard depth >= maxDepth fires).  The visited set is the list of
ids on the path from the root; each child call receives the current id
consed on, which is the copy new Set(visited) taken after
visited.add(paperId).  Children are built over the valid ids in order
and the null results are dropped, as Promise.all then filter(Boolean). -/
def buildAux (env : Env) (o : CitationTreeOptions) :
    Nat → String → Nat → List String → Option CitationTreeNode
  | 0, _, _, _ => none
  | remaining + 1, paperId, depth, visited =>
      if visited.contains paperId then none
      else
        match (resolvePaper env paperId).paper with
        | none => none
        | some paper =>
            let references := paper.metaRefs.getD []
            let citations := paper.metaCites.getD []
            let relatedPapers := if depth = 0 then citations else references
            let limitedRelated := relatedPapers.take (maxRefsOf o)
            let validIds := limitedRelated.filterMap entryId
            let referencesTrees := validIds.filterMap
              (fun relatedId =>
                buildAux env o remaining relatedId (depth + 1)
                  (paperId :: visited))
            let node := CitationTreeNode.mk paper referencesTrees depth none
            some (if includeMetricsOf o then
                    CitationTreeNode.mk paper referencesTrees depth
                      (some (countNodes node))
                  else node)

/-- CitationService.buildCitationTree with the source signature; the
depth and visited arguments default to 0 and the empty set at the entry
point. -/
def buildCitationTree (env : Env) (paperId : String)
    (o : CitationTreeOptions) (depth : Nat) (visited : List String) :
    Option CitationTreeNode :=
  buildAux env o (maxDepthOf o - depth) paperId depth visited

/-- The relevant shape of an AxiosError in withRetry: the HTTP status of
the response if any, the error code if any, and the retry-after header
already converted to milliseconds if present. -/
structure AxiosFailure where
  status : Option Nat
  code : Option String
  retryAfterMs : Option Nat
deriving DecidableEq, Repr

/-- Outcome of one attempt of the wrapped request. -/
inductive ReqOutcome (T : Type) where
  | ok (t : T)
  | fail (e : AxiosFailure)
deriving DecidableEq, Repr

/-- The connection error codes retried by withRetry. -/
def transientCodes : List String := ["ECONNRESET", "ETIMEDOUT", "ECONNABORTED"]

/-- Line 66: retry for 429, any status at least 500, or a transient
connection error code. -/
def shouldRetry (e : AxiosFailure) : Bool :=
  e.status == some 429 ||
  (match e.status with
   | some s => decide (500 ≤ s)
   | none => false) ||
  (match e.code with
   | some c => transientCodes.contains c
   | none => false)

/-- Line 72: the backoff slept before the next attempt, retry-after
taking precedence over the capped exponential. -/
def backoffMs (e : AxiosFailure) (i : Nat) : Nat :=
  e.retryAfterMs.getD (min 4000 (1000 * 2 ^ i))

/-- Observable trace of one withRetry run: the value or the error
finally thrown, the number of times the request was invoked, and the
list of backoff sleeps performed, in order. -/
structure RetryTrace (T : Type) where
  result : Except AxiosFailure T
  attemptsMade : Nat
  sleeps : List Nat

/-- The loop of SemanticScholarAPI.withRetry.  req gives the outcome of
attempt i; remaining counts the loop iterations left, so the current
iteration is the last one exactly when remaining, after this attempt,
is zero (the i === attempts - 1 test).  The remaining = 0 base case is
the fall-through throw of an absent lastError, unreachable whenever the
loop runs at least once. -/
def withRetryGo {T : Type} (req : Nat → ReqOutcome T) :
    Nat → Nat → RetryTrace T
  | 0, _ => ⟨Except.error ⟨none, none, none⟩, 0, []⟩
  | remaining + 1, i =>
      match req i with
      | .ok t => ⟨Except.ok t, 1, []⟩
      | .fail e =>
          if !(shouldRetry e) || remaining = 0 then ⟨Except.error e, 1, []⟩
          else
            let rest := withRetryGo req remaining (i + 1)
            ⟨rest.result, rest.attemptsMade + 1, backoffMs e i :: rest.sleeps⟩

/-- SemanticScholarAPI.withRetry with its default of attempts = 3. -/
def withRetry {T : Type} (req : Nat → ReqOutcome T) (attempts : Nat) :
    RetryTrace T :=
  withRetryGo req attempts 0

/-- The responses the buildTree endpoint can produce. -/
inductive ControllerResponse where
  | badRequest (message : String)
  | notFound (message : String)
  | okBuild (tree : CitationTreeNode) (statistics : TreeStatistics)
      (flattened : List FlatEntry)
  | failure (message : String) (error : String)

/-- CitationController.buildTree: destructure the body with defaults
5, 5 and false, reject an absent paperId, build the tree, answer 404
with the fixed message when the build returned null, otherwise compute
statistics and the flattened projection and answer 200.  The 500
failure arm of the source is unreachable here because the service
catches every exception of the build internally and the analytics are
total. -/
def buildTreeController (env : Env) (paperId : String)
    (body : CitationTreeOptions) : ControllerResponse :=
  let options : CitationTreeOptions :=
    { maxDepth := some (body.maxDepth.getD 5),
      maxReferencesPerLevel := some (body.maxReferencesPerLevel.getD 5),
      includeMetrics := some (body.includeMetrics.getD false) }
  if paperId = "" then ControllerResponse.badRequest "paper id is required"
  else
    match buildCitationTree env paperId options 0 [] with
    | none =>
        ControllerResponse.notFound "unable to build citation tree for this paper"
    | some tree =>
        ControllerResponse.okBuild tree (getTreeStatistics tree)
          (flattenTree tree)

/-- An author object of the remote API shape. -/
structure Author where
  authorId : Option String
  name : String
  affiliation : Option String
deriving DecidableEq, Repr

/-- The Paper interface of academicApiService: what savePaper and
savePapers receive. -/
structure ApiPaper where
  id : String
  title : String
  abstract : Option String
  authors : List Author
  publicationDate : Option String
  citationCount : Nat
  venue : Option String
  url : Option String
  references : Option (List MetaEntry)
  citations : Option (List MetaEntry)
  apiSource : String
  externalIds : Option (List (String × String))
deriving DecidableEq, Repr

/-- A parameter value bound into the insert statement.  JSON.stringify
arguments are kept structured; undefined becomes nullVal. -/
inductive SqlValue where
  | text (s : String)
  | nullVal
  | intVal (n : Nat)
  | jsonAuthors (authors : List Author)
  | jsonMap (m : List (String × String))
  | jsonMeta (venue url : Option String)
      (references citations : List MetaEntry)
deriving DecidableEq, Repr

/-- The nine parameters of the papers upsert, named by the column each
position is bound to: the column list of both statements is
(id, title, abstract, authors, publication_date, citation_count,
api_source, external_ids, meta_data). -/
structure InsertParams where
  id : SqlValue
  title : SqlValue
  abstract : SqlValue
  authors : SqlValue
  publication_date : SqlValue
  citation_count : SqlValue
  api_source : SqlValue
  external_ids : SqlValue
  meta_data : SqlValue
deriving DecidableEq, Repr

/-- The parameter list of PaperRepository.savePaper, in source order:
id, title, abstract || two quotes, authors, publicationDate or empty,
citationCount, apiSource, externalIds or empty object, and the meta_data
object with venue, url, references || [] and citations || []. -/
def savePaperParams (p : ApiPaper) : InsertParams :=
  { id := SqlValue.text p.id,
    title := SqlValue.text p.title,
    abstract := SqlValue.text (p.abstract.getD ""),
    authors := SqlValue.jsonAuthors p.authors,
    publication_date := SqlValue.text (p.publicationDate.getD ""),
    citation_count := SqlValue.intVal p.citationCount,
    api_source := SqlValue.text p.apiSource,
    external_ids := SqlValue.jsonMap (p.externalIds.getD []),
    meta_data := SqlValue.jsonMeta p.venue p.url
      (p.references.getD []) (p.citations.getD []) }

/-- The parameter list built for each paper by PaperRepository.savePapers,
in source order: id, then paper.abstract, then paper.title, then the
rest as in savePaper.  Positions two and three are bound to the title and
abstract columns respectively, and an undefined abstract is passed
through unreplaced. -/
def savePapersParams (p : ApiPaper) : InsertParams :=
  { id := SqlValue.text p.id,
    title := match p.abstract with
             | some a => SqlValue.text a
             | none => SqlValue.nullVal,
    abstract := SqlValue.text p.title,
    authors := SqlValue.jsonAuthors p.authors,
    publication_date := SqlValue.text (p.publicationDate.getD ""),
    citation_count := SqlValue.intVal p.citationCount,
    api_source := SqlValue.text p.apiSource,
    external_ids := SqlValue.jsonMap (p.externalIds.getD []),
    meta_data := SqlValue.jsonMeta p.venue p.url
      (p.references.getD []) (p.citations.getD []) }

/-- The candidate ids a node at the given depth expands, after prefix
truncation and the string filter: lines 85-90 of the service. -/
def validIdsOf (paper : DbPaper) (depth : Nat) (o : CitationTreeOptions) :
    List String :=
  ((if depth = 0 then paper.metaCites.getD [] else paper.metaRefs.getD []).take
    (maxRefsOf o)).filterMap entryId

/-- Greatest value of d + treeHeight t over the members t of a list,
0 when the list is empty; the shape of the maxDepth accumulation of
getTreeStatistics over a child list at traversal depth d. -/
def depthMaxList (refs : List CitationTreeNode) (d : Nat) : Nat :=
  match refs with
  | [] => 0
  | t :: ts => max (d + treeHeight t) (depthMaxList ts d)

/-- Demo paper R: cited by A and B, with a nonempty references array so
no refetch is triggered. -/
def paperR : DbPaper :=
  ⟨"R", "root", 10, some [MetaEntry.str "A"],
    some [MetaEntry.str "A", MetaEntry.str "B"]⟩

/-- Demo paper A of the two-cycle: A cites B (references = [B]). -/
def paperA : DbPaper := ⟨"A", "alpha", 3, some [MetaEntry.str "B"], some []⟩

/-- Demo paper B of the two-cycle: B cites A (references = [A]). -/
def paperB : DbPaper := ⟨"B", "beta", 4, some [MetaEntry.str "A"], some []⟩

/-- An input graph with the two-cycle between A and B, both reachable
from root R; the remote always fails, which never matters because every
stored row has a nonempty references array. -/
def demoEnv : Env :=
  { store := fun s =>
      if s = "R" then StoreResult.found paperR
      else if s = "A" then StoreResult.found paperA
      else if s = "B" then StoreResult.found paperB
      else StoreResult.missing,
    fetchSave := fun _ => none }

/-- An options object with every field undefined: all defaults apply. -/
def demoOptions : CitationTreeOptions := ⟨none, none, none⟩

/-- The tree the builder produces on demoEnv from R: the cycle is cut on
each path, yet A and B both appear in the two sibling branches. -/
def demoTree : CitationTreeNode :=
  CitationTreeNode.mk paperR
    [CitationTreeNode.mk paperA [CitationTreeNode.mk paperB [] 2 none] 1 none,
     CitationTreeNode.mk paperB [CitationTreeNode.mk paperA [] 2 none] 1 none]
    0 none

/-- Options requesting metrics with the explicit controller defaults. -/
def metricsOptions : CitationTreeOptions := ⟨some 5, some 5, some true⟩

/-- The tree built on demoEnv with includeMetrics: every node carries its
subtree count. -/
def demoTreeM : CitationTreeNode :=
  CitationTreeNode.mk paperR
    [CitationTreeNode.mk paperA
       [CitationTreeNode.mk paperB [] 2 (some 1)] 1 (some 2),
     CitationTreeNode.mk paperB
       [CitationTreeNode.mk paperA [] 2 (some 1)] 1 (some 2)]
    0 (some 5)

/-- A paper whose references array is nonempty (so it is not refetched)
but whose citations array is empty: a root with no expandable children. -/
def paperLeaf : DbPaper := ⟨"L", "leaf", 2, some [MetaEntry.str "X"], some []⟩

/-- Environment holding only paperLeaf. -/
def leafEnv : Env :=
  { store := fun s =>
      if s = "L" then StoreResult.found paperLeaf else StoreResult.missing,
    fetchSave := fun _ => none }

/-- Papers for the duplicate-ancestor-id flattening scenario: the root is
cited by A and B, A cites C, B cites A, C expands nothing. -/
def paper7R : DbPaper :=
  ⟨"R", "r", 0, some [MetaEntry.nonString],
    some [MetaEntry.str "A", MetaEntry.str "B"]⟩

/-- Paper A of the flattening scenario. -/
def paper7A : DbPaper := ⟨"A", "a", 0, some [MetaEntry.str "C"], some []⟩

/-- Paper B of the flattening scenario. -/
def paper7B : DbPaper := ⟨"B", "b", 0, some [MetaEntry.str "A"], some []⟩

/-- Paper C of the flattening scenario. -/
def paper7C : DbPaper := ⟨"C", "c", 0, some [MetaEntry.nonString], some []⟩

/-- Environment of the flattening scenario. -/
def env7 : Env :=
  { store := fun s =>
      if s = "R" then StoreResult.found paper7R
      else if s = "A" then StoreResult.found paper7A
      else if s = "B" then StoreResult.found paper7B
      else if s = "C" then StoreResult.found paper7C
      else StoreResult.missing,
    fetchSave := fun _ => none }

/-- The tree built on env7: the id A occurs at two positions that both
precede the final C entry of the flattened list. -/
def tree7 : CitationTreeNode :=
  CitationTreeNode.mk paper7R
    [CitationTreeNode.mk paper7A [CitationTreeNode.mk paper7C [] 2 none] 1 none,
     CitationTreeNode.mk paper7B
       [CitationTreeNode.mk paper7A
          [CitationTreeNode.mk paper7C [] 3 none] 2 none] 1 none]
    0 none

/-- A stored row without a references array (undefined). -/
def pStale1 : DbPaper := ⟨"S1", "stale one", 0, none, some []⟩

/-- The refreshed row the remote returns for S1. -/
def pFresh1 : DbPaper := ⟨"S1", "fresh one", 1, some [], some []⟩

/-- The row the remote returns for the unstored id S2. -/
def pFresh2 : DbPaper := ⟨"S2", "fresh two", 2, some [], some []⟩

/-- A stored row with an empty references array. -/
def pStale4 : DbPaper := ⟨"S4", "stale four", 0, some [], some []⟩

/-- Resolution fixture: S1 stored stale with a working remote, S2 absent
with a working remote, S3 absent with a failing remote, S4 stored stale
with a failing remote. -/
def env4 : Env :=
  { store := fun s =>
      if s = "S1" then StoreResult.found pStale1
      else if s = "S4" then StoreResult.found pStale4
      else StoreResult.missing,
    fetchSave := fun s =>
      if s = "S1" then some pFresh1
      else if s = "S2" then some pFresh2
      else none }

/-- An environment whose store throws on every lookup: the database is
unavailable. -/
def envErr : Env :=
  { store := fun _ => StoreResult.err, fetchSave := fun _ => none }

/-- HTTP 429 failure carrying a retry-after of 2 seconds. -/
def fail429 : AxiosFailure := ⟨some 429, none, some 2000⟩

/-- HTTP 500 failure without retry-after. -/
def fail500 : AxiosFailure := ⟨some 500, none, none⟩

/-- HTTP 404 failure: non-transient. -/
def fail404 : AxiosFailure := ⟨some 404, none, none⟩

/-- A request that is rate limited once, errors transiently once, then
succeeds. -/
def reqFlaky : Nat → ReqOutcome Nat
  | 0 => ReqOutcome.fail fail429
  | 1 => ReqOutcome.fail fail500
  | _ => ReqOutcome.ok 7

/-- A request that always answers 404. -/
def req404 : Nat → ReqOutcome Nat := fun _ => ReqOutcome.fail fail404

/-- The paper distinguishing the two upsert paths: title and abstract
differ. -/
def paper10 : ApiPaper :=
  { id := "p1", title := "T", abstract := some "Ab", authors := [],
    publicationDate := none, citationCount := 0, venue := none,
    url := none, references := none, citations := none,
    apiSource := "semantic_scholar", externalIds := none }

@[simp]
theorem CitationTreeNode.paper_mk (p : DbPaper) (refs : List CitationTreeNode)
    (d : Nat) (tn : Option Nat) :
    (CitationTreeNode.mk p refs d tn).paper = p := rfl

@[simp]
theorem CitationTreeNode.references_mk (p : DbPaper)
    (refs : List CitationTreeNode) (d : Nat) (tn : Option Nat) :
    (CitationTreeNode.mk p refs d tn).references = refs := rfl

@[simp]
theorem CitationTreeNode.depth_mk (p : DbPaper) (refs : List CitationTreeNode)
    (d : Nat) (tn : Option Nat) :
    (CitationTreeNode.mk p refs d tn).depth = d := rfl

@[simp]
theorem CitationTreeNode.totalNodes_mk (p : DbPaper)
    (refs : List CitationTreeNode) (d : Nat) (tn : Option Nat) :
    (CitationTreeNode.mk p refs d tn).totalNodes = tn := rfl

theorem CitationTreeNode.eta (t : CitationTreeNode) :
    CitationTreeNode.mk t.paper t.references t.depth t.totalNodes = t := by
  cases t with
  | mk p refs d tn => rfl

theorem countNodesList_eq_sum (l : List CitationTreeNode) :
    countNodesList l = (l.map countNodes).sum := by
  induction l with
  | nil => rfl
  | cons t ts ih => simp [countNodesList, ih]

theorem countNodes_eq (t : CitationTreeNode) :
    countNodes t = 1 + (t.references.map countNodes).sum := by
  cases t with
  | mk p refs d tn => simp [countNodes, countNodesList_eq_sum]

theorem countNodes_pos (t : CitationTreeNode) : 0 < countNodes t := by
  cases t with
  | mk p refs d tn => simp [countNodes]

theorem mem_treeNodesList (nd : CitationTreeNode) (l : List CitationTreeNode) :
    nd ∈ treeNodesList l ↔ ∃ c ∈ l, nd ∈ treeNodes c := by
  induction l with
  | nil => simp [treeNodesList]
  | cons t ts ih => simp [treeNodesList, ih]

theorem mem_treeNodes_iff (nd t : CitationTreeNode) :
    nd ∈ treeNodes t ↔ nd = t ∨ ∃ c ∈ t.references, nd ∈ treeNodes c := by
  cases t with
  | mk p refs d tn =>
      simp only [treeNodes, List.mem_cons, mem_treeNodesList,
        CitationTreeNode.references_mk]

theorem self_mem_treeNodes (t : CitationTreeNode) : t ∈ treeNodes t := by
  rw [mem_treeNodes_iff]; left; rfl

theorem pathOkList_iff (anc : List String) (l : List CitationTreeNode) :
    pathOkList anc l = true ↔ ∀ c ∈ l, pathOk anc c = true := by
  induction l with
  | nil => simp [pathOkList]
  | cons t ts ih => simp [pathOkList, ih]

mutual

theorem flattenTraverse_length : ∀ (t : CitationTreeNode)
    (par : Option String), (flattenTraverse t par).length = countNodes t
  | .mk p refs d tn, par => by
      simp [flattenTraverse, countNodes, flattenChildren_length refs p.id,
        Nat.add_comm]

theorem flattenChildren_length : ∀ (refs : List CitationTreeNode)
    (pid : String), (flattenChildren refs pid).length = countNodesList refs
  | [], _ => rfl
  | t :: ts, pid => by
      simp [flattenChildren, countNodesList,
        flattenTraverse_length t (some pid), flattenChildren_length ts pid]

end

theorem flattenTree_length (t : CitationTreeNode) :
    (flattenTree t).length = countNodes t :=
  flattenTraverse_length t none


theorem buildAux_zero (env : Env) (o : CitationTreeOptions) (pid : String)
    (depth : Nat) (visited : List String) :
    buildAux env o 0 pid depth visited = none := rfl

theorem buildAux_succ (env : Env) (o : CitationTreeOptions) (n : Nat)
    (pid : String) (depth : Nat) (visited : List String) :
    buildAux env o (n + 1) pid depth visited =
      if visited.contains pid then none
      else
        match (resolvePaper env pid).paper with
        | none => none
        | some paper =>
            some (CitationTreeNode.mk paper
              ((validIdsOf paper depth o).filterMap
                (fun relatedId =>
                  buildAux env o n relatedId (depth + 1) (pid :: visited)))
              depth
              (if includeMetricsOf o then
                some (countNodes (CitationTreeNode.mk paper
                  ((validIdsOf paper depth o).filterMap
                    (fun relatedId =>
                      buildAux env o n relatedId (depth + 1) (pid :: visited)))
                  depth none))
               else none)) := by
  rw [buildAux]
  cases hv : visited.contains pid with
  | true => rfl
  | false =>
      simp only [Bool.false_eq_true, if_false]
      rcases hp : (resolvePaper env pid).paper with _ | paper
      · rfl
      · simp only [validIdsOf]
        split <;> rfl

theorem buildAux_eq_some {env : Env} {o : CitationTreeOptions} {n : Nat}
    {pid : String} {depth : Nat} {visited : List String}
    {t : CitationTreeNode}
    (h : buildAux env o (n + 1) pid depth visited = some t) :
    visited.contains pid = false ∧
    ∃ paper : DbPaper, (resolvePaper env pid).paper = some paper ∧
      t = CitationTreeNode.mk paper
            ((validIdsOf paper depth o).filterMap
              (fun relatedId =>
                buildAux env o n relatedId (depth + 1) (pid :: visited)))
            depth
            (if includeMetricsOf o then
              some (countNodes (CitationTreeNode.mk paper
                ((validIdsOf paper depth o).filterMap
                  (fun relatedId =>
                    buildAux env o n relatedId (depth + 1) (pid :: visited)))
                depth none))
             else none) := by
  rw [buildAux_succ] at h
  cases hv : visited.contains pid with
  | true => rw [hv] at h; simp at h
  | false =>
      rw [hv] at h
      simp only [Bool.false_eq_true, if_false] at h
      rcases hp : (resolvePaper env pid).paper with _ | paper
      · rw [hp] at h; simp at h
      · rw [hp] at h
        simp only [Option.some.injEq] at h
        exact ⟨rfl, paper, rfl, h.symm⟩

theorem buildCitationTree_none_of_depth (env : Env) (pid : String)
    (o : CitationTreeOptions) (depth : Nat) (visited : List String)
    (h : maxDepthOf o ≤ depth) :
    buildCitationTree env pid o depth visited = none := by
  unfold buildCitationTree
  rw [Nat.sub_eq_zero_of_le h]
  exact buildAux_zero env o pid depth visited

theorem buildCitationTree_unfold (env : Env) (pid : String)
    (o : CitationTreeOptions) (depth : Nat) (visited : List String) :
    buildCitationTree env pid o depth visited =
      if maxDepthOf o ≤ depth then none
      else if visited.contains pid then none
      else
        match (resolvePaper env pid).paper with
        | none => none
        | some paper =>
            some (CitationTreeNode.mk paper
              ((validIdsOf paper depth o).filterMap
                (fun relatedId =>
                  buildCitationTree env relatedId o (depth + 1)
                    (pid :: visited)))
              depth
              (if includeMetricsOf o then
                some (countNodes (CitationTreeNode.mk paper
                  ((validIdsOf paper depth o).filterMap
                    (fun relatedId =>
                      buildCitationTree env relatedId o (depth + 1)
                        (pid :: visited)))
                  depth none))
               else none)) := by
  by_cases hd : maxDepthOf o ≤ depth
  · rw [if_pos hd]
    exact buildCitationTree_none_of_depth env pid o depth visited hd
  · rw [if_neg hd]
    have hsub : maxDepthOf o - depth = (maxDepthOf o - (depth + 1)) + 1 := by
      omega
    have hchild : ∀ relatedId : String,
        buildCitationTree env relatedId o (depth + 1) (pid :: visited) =
          buildAux env o (maxDepthOf o - (depth + 1)) relatedId (depth + 1)
            (pid :: visited) := fun _ => rfl
    unfold buildCitationTree
    rw [hsub, buildAux_succ]

theorem resolvePaper_paper_id {env : Env} {pid : String} {p : DbPaper}
    (hc : ConsistentEnv env)
    (h : (resolvePaper env pid).paper = some p) : p.id = pid := by
  unfold resolvePaper at h
  rcases hs : env.store pid with q | _ | _ <;> rw [hs] at h <;> dsimp only at h
  · by_cases hm : missingRefs q
    · rw [if_pos hm] at h
      rcases hf : env.fetchSave pid with _ | saved <;> rw [hf] at h
      · simp only [Resolution.paper, Option.some.injEq] at h
        exact h ▸ (hc pid).1 q hs
      · simp only [Resolution.paper, Option.some.injEq] at h
        exact h ▸ (hc pid).2 saved hf
    · rw [if_neg hm] at h
      simp only [Resolution.paper, Option.some.injEq] at h
      exact h ▸ (hc pid).1 q hs
  · rcases hf : env.fetchSave pid with _ | saved <;> rw [hf] at h
    · simp [Resolution.paper] at h
    · simp only [Resolution.paper, Option.some.injEq] at h
      exact h ▸ (hc pid).2 saved hf
  · simp [Resolution.paper] at h

theorem buildAux_id {env : Env} {o : CitationTreeOptions} {n : Nat}
    {pid : String} {depth : Nat} {visited : List String}
    {t : CitationTreeNode} (hc : ConsistentEnv env)
    (h : buildAux env o n pid depth visited = some t) : t.paper.id = pid := by
  cases n with
  | zero => rw [buildAux_zero] at h; cases h
  | succ n =>
      obtain ⟨hv, paper, hp, ht⟩ := buildAux_eq_some h
      subst ht
      exact resolvePaper_paper_id hc hp

theorem filterMap_build_ids {env : Env} {o : CitationTreeOptions} {n : Nat}
    {depth : Nat} {visited : List String} (hc : ConsistentEnv env) :
    ∀ rids : List String,
      List.Sublist
        ((rids.filterMap
          (fun rid => buildAux env o n rid depth visited)).map
            (fun c => c.paper.id)) rids := by
  intro rids
  induction rids with
  | nil => simp
  | cons a l ih =>
      rw [List.filterMap_cons]
      cases hb : buildAux env o n a depth visited with
      | none => exact ih.cons a
      | some c =>
          rw [List.map_cons]
          rw [buildAux_id hc hb]
          exact ih.cons₂ a

theorem buildAux_pathOk {env : Env} {o : CitationTreeOptions}
    (hc : ConsistentEnv env) :
    ∀ (n : Nat) (pid : String) (depth : Nat) (visited : List String)
      (t : CitationTreeNode),
      buildAux env o n pid depth visited = some t →
      pathOk visited t = true := by
  intro n
  induction n with
  | zero => intro pid depth visited t h; rw [buildAux_zero] at h; cases h
  | succ n ih =>
      intro pid depth visited t h
      obtain ⟨hv, paper, hp, ht⟩ := buildAux_eq_some h
      have hid : paper.id = pid := resolvePaper_paper_id hc hp
      subst ht
      simp only [pathOk, Bool.and_eq_true, Bool.not_eq_eq_eq_not, Bool.not_true,
        pathOkList_iff]
      refine ⟨by rw [hid]; simpa using hv, ?_⟩
      intro c hcmem
      rcases List.mem_filterMap.mp hcmem with ⟨rid, _, hb⟩
      have := ih rid (depth + 1) (pid :: visited) c hb
      rwa [hid]

theorem buildAux_depth_bounds {env : Env} {o : CitationTreeOptions} :
    ∀ (n : Nat) (pid : String) (depth : Nat) (visited : List String)
      (t : CitationTreeNode),
      buildAux env o n pid depth visited = some t →
      ∀ nd ∈ treeNodes t, depth ≤ nd.depth ∧ nd.depth < depth + n := by
  intro n
  induction n with
  | zero => intro pid depth visited t h; rw [buildAux_zero] at h; cases h
  | succ n ih =>
      intro pid depth visited t h nd hnd
      obtain ⟨hv, paper, hp, ht⟩ := buildAux_eq_some h
      subst ht
      rcases (mem_treeNodes_iff nd _).mp hnd with heq | ⟨c, hcmem, hcnd⟩
      · subst heq
        simp only [CitationTreeNode.depth_mk]
        omega
      · simp only [CitationTreeNode.references_mk] at hcmem
        rcases List.mem_filterMap.mp hcmem with ⟨rid, _, hb⟩
        have hbounds := ih rid (depth + 1) (pid :: visited) c hb nd hcnd
        omega

theorem buildAux_subcall {env : Env} {o : CitationTreeOptions} :
    ∀ (n : Nat) (pid : String) (depth : Nat) (visited : List String)
      (t : CitationTreeNode),
      buildAux env o n pid depth visited = some t →
      ∀ nd ∈ treeNodes t, ∃ (n₂ : Nat) (pid₂ : String)
        (visited₂ : List String), n₂ ≤ n ∧
          buildAux env o n₂ pid₂ nd.depth visited₂ = some nd := by
  intro n
  induction n with
  | zero => intro pid depth visited t h; rw [buildAux_zero] at h; cases h
  | succ n ih =>
      intro pid depth visited t h nd hnd
      obtain ⟨hv, paper, hp, ht⟩ := buildAux_eq_some h
      rcases (mem_treeNodes_iff nd t).mp hnd with heq | ⟨c, hcmem, hcnd⟩
      · subst heq
        refine ⟨n + 1, pid, visited, Nat.le_refl _, ?_⟩
        have hd : nd.depth = depth := by
          rw [ht]
          exact CitationTreeNode.depth_mk _ _ _ _
        rw [hd]
        exact h
      · rw [ht] at hcmem
        simp only [CitationTreeNode.references_mk] at hcmem
        rcases List.mem_filterMap.mp hcmem with ⟨rid, _, hb⟩
        rcases ih rid (depth + 1) (pid :: visited) c hb nd hcnd with
          ⟨n₂, pid₂, visited₂, hle, hb₂⟩
        exact ⟨n₂, pid₂, visited₂, Nat.le_succ_of_le hle, hb₂⟩

theorem buildAux_refs_len {env : Env} {o : CitationTreeOptions} {n : Nat}
    {pid : String} {depth : Nat} {visited : List String}
    {t : CitationTreeNode} (h : buildAux env o n pid depth visited = some t) :
    t.references.length ≤ maxRefsOf o := by
  cases n with
  | zero => rw [buildAux_zero] at h; cases h
  | succ n =>
      obtain ⟨hv, paper, hp, ht⟩ := buildAux_eq_some h
      subst ht
      simp only [CitationTreeNode.references_mk]
      calc (List.filterMap _ (validIdsOf paper depth o)).length
          ≤ (validIdsOf paper depth o).length := List.length_filterMap_le _ _
        _ ≤ _ := by
            unfold validIdsOf
            calc (List.filterMap entryId _).length
                ≤ (List.take (maxRefsOf o) _).length :=
                  List.length_filterMap_le _ _
              _ ≤ maxRefsOf o := List.length_take_le _ _

theorem buildAux_refs_ids {env : Env} {o : CitationTreeOptions} {n : Nat}
    {pid : String} {depth : Nat} {visited : List String}
    {t : CitationTreeNode} (hc : ConsistentEnv env)
    (h : buildAux env o n pid depth visited = some t) :
    List.Sublist (t.references.map (fun c => c.paper.id))
      (validIdsOf t.paper t.depth o) := by
  cases n with
  | zero => rw [buildAux_zero] at h; cases h
  | succ n =>
      obtain ⟨hv, paper, hp, ht⟩ := buildAux_eq_some h
      subst ht
      simp only [CitationTreeNode.references_mk, CitationTreeNode.paper_mk,
        CitationTreeNode.depth_mk]
      exact filterMap_build_ids hc (validIdsOf paper depth o)

theorem validIdsOf_sublist (p : DbPaper) (d : Nat) (o : CitationTreeOptions) :
    List.Sublist (validIdsOf p d o)
      ((if d = 0 then p.metaCites.getD [] else p.metaRefs.getD []).filterMap
        entryId) := by
  unfold validIdsOf
  exact (List.take_sublist _ _).filterMap entryId

mutual

theorem flatten_entry_node : ∀ (t : CitationTreeNode) (par : Option String)
    (e : FlatEntry), e ∈ flattenTraverse t par →
    ∃ nd ∈ treeNodes t, e.depth = nd.depth
  | .mk p refs d tn, par, e => fun he => by
      rw [flattenTraverse] at he
      rcases List.mem_cons.mp he with he0 | heC
      · refine ⟨CitationTreeNode.mk p refs d tn, self_mem_treeNodes _, ?_⟩
        rw [he0]
        rfl
      · rcases flatten_children_node refs p.id e heC with ⟨nd, hmem, hd⟩
        refine ⟨nd, ?_, hd⟩
        rw [treeNodes]
        exact List.mem_cons_of_mem _ hmem

theorem flatten_children_node : ∀ (refs : List CitationTreeNode)
    (pid : String) (e : FlatEntry), e ∈ flattenChildren refs pid →
    ∃ nd ∈ treeNodesList refs, e.depth = nd.depth
  | [], _, e => fun he => by
      rw [flattenChildren] at he
      simp at he
  | t :: ts, pid, e => fun he => by
      rw [flattenChildren] at he
      rcases List.mem_append.mp he with hL | hR
      · rcases flatten_entry_node t (some pid) e hL with ⟨nd, hmem, hd⟩
        refine ⟨nd, ?_, hd⟩
        rw [treeNodesList]
        exact List.mem_append_left _ hmem
      · rcases flatten_children_node ts pid e hR with ⟨nd, hmem, hd⟩
        refine ⟨nd, ?_, hd⟩
        rw [treeNodesList]
        exact List.mem_append_right _ hmem

end

theorem depthMax_height (refs : List CitationTreeNode) (d : Nat) :
    max d (depthMaxList refs (d + 1)) = d + treeHeightList refs := by
  induction refs with
  | nil => simp [depthMaxList, treeHeightList]
  | cons t ts ih =>
      rw [depthMaxList, treeHeightList]
      omega

mutual

theorem statsTraverse_spec : ∀ (t : CitationTreeNode) (d : Nat)
    (acc : StatsAcc),
    statsTraverse t d acc =
      ⟨acc.totalNodes + countNodes t, max acc.maxDepth (d + treeHeight t),
       acc.totalReferences + sumRefLens t,
       acc.totalCitations + sumCitations t⟩
  | .mk p refs dd tn, d, acc => by
      rw [statsTraverse, statsChildren_spec refs (d + 1) _]
      have hdm := depthMax_height refs d
      simp only [StatsAcc.mk.injEq, countNodes, treeHeight, sumRefLens,
        sumCitations]
      refine ⟨by omega, by simp only [Nat.max_assoc]; omega, by omega, by omega⟩

theorem statsChildren_spec : ∀ (refs : List CitationTreeNode) (d : Nat)
    (acc : StatsAcc),
    statsChildren refs d acc =
      ⟨acc.totalNodes + countNodesList refs,
       max acc.maxDepth (depthMaxList refs d),
       acc.totalReferences + sumRefLensList refs,
       acc.totalCitations + sumCitationsList refs⟩
  | [], d, acc => by
      cases acc
      simp [statsChildren, countNodesList, depthMaxList, sumRefLensList,
        sumCitationsList]
  | t :: ts, d, acc => by
      rw [statsChildren, statsTraverse_spec t d acc,
        statsChildren_spec ts d _]
      simp only [StatsAcc.mk.injEq, countNodesList, depthMaxList,
        sumRefLensList, sumCitationsList]
      refine ⟨by omega, by omega, by omega, by omega⟩

end

theorem getTreeStatistics_eq (t : CitationTreeNode) :
    getTreeStatistics t =
      { totalNodes := countNodes t, maxDepth := treeHeight t,
        averageReferences := (sumRefLens t : ℚ) / (countNodes t : ℚ),
        totalCitations := sumCitations t } := by
  unfold getTreeStatistics
  rw [statsTraverse_spec]
  have hpos := countNodes_pos t
  simp only [TreeStatistics.mk.injEq]
  refine ⟨by omega, by simp, ?_, by omega⟩
  have hguard : 0 + countNodes t > 0 := by omega
  rw [if_pos hguard]
  norm_num

mutual

theorem linkedT : ∀ (t : CitationTreeNode) (par : Option String) (i : Nat)
    (e : FlatEntry), (flattenTraverse t par)[i]? = some e →
    (i = 0 → e.parentId = par) ∧
    (0 < i → ∃ q, e.parentId = some q ∧
      q ∈ ((flattenTraverse t par).take i).map FlatEntry.paperId)
  | .mk p refs d tn, par, i, e => by
      intro h
      rw [flattenTraverse] at h ⊢
      cases i with
      | zero =>
          rw [List.getElem?_cons_zero] at h
          injection h with h
          refine ⟨fun _ => ?_, fun h0 => absurd h0 (Nat.lt_irrefl 0)⟩
          rw [← h]
      | succ i =>
          rw [List.getElem?_cons_succ] at h
          rcases linkedC refs p.id i e h with ⟨q, hq, hcase⟩
          refine ⟨fun h0 => absurd h0 (Nat.succ_ne_zero i), fun _ => ⟨q, hq, ?_⟩⟩
          simp only [List.take_succ_cons, List.map_cons]
          rcases hcase with rfl | hmem
          · exact List.mem_cons_self _ _
          · exact List.mem_cons_of_mem _ hmem

theorem linkedC : ∀ (refs : List CitationTreeNode) (pid : String) (i : Nat)
    (e : FlatEntry), (flattenChildren refs pid)[i]? = some e →
    ∃ q, e.parentId = some q ∧
      (q = pid ∨ q ∈ ((flattenChildren refs pid).take i).map FlatEntry.paperId)
  | [], pid, i, e => by
      intro h
      rw [flattenChildren] at h
      simp at h
  | c :: cs, pid, i, e => by
      intro h
      rw [flattenChildren] at h ⊢
      by_cases hi : i < (flattenTraverse c (some pid)).length
      · rw [List.getElem?_append_left hi] at h
        have hT := linkedT c (some pid) i e h
        cases Nat.eq_zero_or_pos i with
        | inl h0 =>
            subst h0
            exact ⟨pid, hT.1 rfl, Or.inl rfl⟩
        | inr hpos =>
            rcases hT.2 hpos with ⟨q, hq, hmem⟩
            refine ⟨q, hq, Or.inr ?_⟩
            rw [List.take_append_eq_append_take, List.map_append]
            exact List.mem_append_left _ hmem
      · push_neg at hi
        rw [List.getElem?_append_right hi] at h
        rcases linkedC cs pid (i - (flattenTraverse c (some pid)).length) e h
          with ⟨q, hq, hcase⟩
        refine ⟨q, hq, ?_⟩
        rcases hcase with rfl | hmem
        · exact Or.inl rfl
        · refine Or.inr ?_
          rw [List.take_append_eq_append_take, List.map_append]
          exact List.mem_append_right _ hmem

end

theorem buildAux_metrics {env : Env} {o : CitationTreeOptions}
    (hm : includeMetricsOf o = true) :
    ∀ (n : Nat) (pid : String) (depth : Nat) (visited : List String)
      (t : CitationTreeNode),
      buildAux env o n pid depth visited = some t →
      ∀ nd ∈ treeNodes t,
        nd.totalNodes = some (1 + (nd.references.map countNodes).sum) := by
  intro n
  induction n with
  | zero => intro pid depth visited t h; rw [buildAux_zero] at h; cases h
  | succ n ih =>
      intro pid depth visited t h nd hnd
      obtain ⟨hv, paper, hp, ht⟩ := buildAux_eq_some h
      rcases (mem_treeNodes_iff nd t).mp hnd with heq | ⟨c, hcmem, hcnd⟩
      · subst heq
        rw [ht]
        simp only [CitationTreeNode.totalNodes_mk, CitationTreeNode.references_mk,
          hm, if_true, countNodes, countNodesList_eq_sum]
      · rw [ht] at hcmem
        simp only [CitationTreeNode.references_mk] at hcmem
        rcases List.mem_filterMap.mp hcmem with ⟨rid, _, hb⟩
        exact ih rid (depth + 1) (pid :: visited) c hb nd hcnd

theorem resolvePaper_missing_ok {env : Env} {pid : String} {q : DbPaper}
    (hs : env.store pid = StoreResult.missing)
    (hf : env.fetchSave pid = some q) :
    resolvePaper env pid = Resolution.fresh q := by
  unfold resolvePaper
  rw [hs]
  dsimp only
  rw [hf]

theorem resolvePaper_missing_fail {env : Env} {pid : String}
    (hs : env.store pid = StoreResult.missing)
    (hf : env.fetchSave pid = none) :
    resolvePaper env pid = Resolution.deadEnd := by
  unfold resolvePaper
  rw [hs]
  dsimp only
  rw [hf]

theorem resolvePaper_stale_ok {env : Env} {pid : String} {p q : DbPaper}
    (hs : env.store pid = StoreResult.found p)
    (hm : missingRefs p = true)
    (hf : env.fetchSave pid = some q) :
    resolvePaper env pid = Resolution.fresh q := by
  unfold resolvePaper
  rw [hs]
  dsimp only
  rw [if_pos hm, hf]

theorem resolvePaper_stale_fail {env : Env} {pid : String} {p : DbPaper}
    (hs : env.store pid = StoreResult.found p)
    (hm : missingRefs p = true)
    (hf : env.fetchSave pid = none) :
    resolvePaper env pid = Resolution.stale p := by
  unfold resolvePaper
  rw [hs]
  dsimp only
  rw [if_pos hm, hf]

theorem resolvePaper_cached {env : Env} {pid : String} {p : DbPaper}
    (hs : env.store pid = StoreResult.found p)
    (hm : missingRefs p = false) :
    resolvePaper env pid = Resolution.cached p := by
  unfold resolvePaper
  rw [hs]
  dsimp only
  rw [if_neg (by rw [hm]; exact Bool.false_ne_true)]

theorem resolvePaper_storeErr {env : Env} {pid : String}
    (hs : env.store pid = StoreResult.err) :
    resolvePaper env pid = Resolution.storeThrew := by
  unfold resolvePaper
  rw [hs]

theorem build_none_of_resolve_none {env : Env} {pid : String}
    {o : CitationTreeOptions} {depth : Nat} {visited : List String}
    (hres : (resolvePaper env pid).paper = none) :
    buildCitationTree env pid o depth visited = none := by
  rw [buildCitationTree_unfold]
  by_cases hd : maxDepthOf o ≤ depth
  · rw [if_pos hd]
  · rw [if_neg hd]
    cases hv : visited.contains pid with
    | true => rfl
    | false =>
        rw [if_neg Bool.false_ne_true]
        rw [hres]

theorem build_proceeds_of_resolve_some {env : Env} {pid : String}
    {o : CitationTreeOptions} {depth : Nat} {visited : List String}
    {p : DbPaper} (hd : depth < maxDepthOf o)
    (hv : visited.contains pid = false)
    (hres : (resolvePaper env pid).paper = some p) :
    ∃ t : CitationTreeNode,
      buildCitationTree env pid o depth visited = some t ∧ t.paper = p := by
  rw [buildCitationTree_unfold]
  rw [if_neg (by omega : ¬ maxDepthOf o ≤ depth)]
  rw [if_neg (by rw [hv]; exact Bool.false_ne_true)]
  rw [hres]
  refine ⟨_, rfl, ?_⟩
  cases includeMetricsOf o <;> rfl

theorem demoEnv_consistent : ConsistentEnv demoEnv := by
  intro pid
  constructor
  · intro p hp
    simp only [demoEnv] at hp
    split_ifs at hp with h1 h2 h3
    · cases hp; subst h1; rfl
    · cases hp; subst h2; rfl
    · cases hp; subst h3; rfl
  · intro p hp
    simp only [demoEnv] at hp
    cases hp

theorem env7_consistent : ConsistentEnv env7 := by
  intro pid
  constructor
  · intro p hp
    simp only [env7] at hp
    split_ifs at hp with h1 h2 h3 h4
    · cases hp; subst h1; rfl
    · cases hp; subst h2; rfl
    · cases hp; subst h3; rfl
    · cases hp; subst h4; rfl
  · intro p hp
    simp only [env7] at hp
    cases hp

/-- C1: cycle safety with a path-scoped visited set.  For every input
graph and every tree the builder returns, no paper id occurs twice on
any single root-to-node path (pathOk), while on the concrete two-cycle
graph demoEnv, where A cites B and B cites A, the build terminates,
returns demoTree, keeps every path duplicate-free, and still shows the
ids A and B once in each of the two sibling branches. -/
theorem claim_C1_cycle_safety :
    (∀ (env : Env) (o : CitationTreeOptions) (pid : String)
       (depth : Nat) (visited : List String) (t : CitationTreeNode),
       ConsistentEnv env →
       buildCitationTree env pid o depth visited = some t →
       pathOk visited t = true) ∧
    (buildCitationTree demoEnv "R" demoOptions 0 [] = some demoTree ∧
     pathOk [] demoTree = true ∧
     demoTree.references.map
       (fun c => (flattenTraverse c none).map FlatEntry.paperId) =
       [["A", "B"], ["B", "A"]]) := by
  refine ⟨?_, rfl, by decide, by decide⟩
  intro env o pid depth visited t hc hb
  exact buildAux_pathOk hc (maxDepthOf o - depth) pid depth visited t hb

/-- Witness for C1 at the two-cycle graph. -/
theorem claim_C1_cycle_safety_witness : pathOk [] demoTree = true :=
  claim_C1_cycle_safety.1 demoEnv demoOptions "R" 0 [] demoTree
    demoEnv_consistent rfl

/-- C2 counterexample: with the default maxDepth of 5, a root whose
candidate list is empty yields a one-entry flattened result whose
greatest depth is 0, not maxDepth - 1 = 4.  The claim that the maximum
depth observed in the flattened result equals maxDepth - 1 is therefore
false as a statement about every returned tree. -/
theorem claim_C2_counterexample :
    buildCitationTree leafEnv "L" demoOptions 0 [] =
      some (CitationTreeNode.mk paperLeaf [] 0 none) ∧
    ((flattenTree (CitationTreeNode.mk paperLeaf [] 0 none)).map
      FlatEntry.depth).foldr max 0 = 0 ∧
    maxDepthOf demoOptions - 1 = 4 :=
  ⟨rfl, by decide, by decide⟩

/-- C2 (amended): for every build from depth 0 with a positive maxDepth,
any call at depth at least maxDepth returns null, every node of a
returned tree has depth strictly below maxDepth, and every entry of the
flattened result has depth at most maxDepth - 1 (this bound is attained
only when the traversal actually reaches the last level). -/
theorem claim_C2_depth_bound :
    ∀ (env : Env) (o : CitationTreeOptions) (pid : String)
      (t : CitationTreeNode),
      0 < maxDepthOf o →
      buildCitationTree env pid o 0 [] = some t →
      (∀ d, maxDepthOf o ≤ d → ∀ (pid₂ : String) (visited : List String),
        buildCitationTree env pid₂ o d visited = none) ∧
      (∀ nd ∈ treeNodes t, nd.depth < maxDepthOf o) ∧
      (∀ e ∈ flattenTree t, e.depth ≤ maxDepthOf o - 1) := by
  intro env o pid t hpos hb
  have hnodes : ∀ nd ∈ treeNodes t, nd.depth < maxDepthOf o := by
    intro nd hnd
    have h := buildAux_depth_bounds (maxDepthOf o - 0) pid 0 [] t hb nd hnd
    omega
  refine ⟨fun d hd pid₂ visited =>
    buildCitationTree_none_of_depth env pid₂ o d visited hd, hnodes, ?_⟩
  intro e he
  rcases flatten_entry_node t none e he with ⟨nd, hmem, hdep⟩
  have := hnodes nd hmem
  omega

/-- Witness for C2 at the two-cycle graph: the root node stays below the
default depth ceiling. -/
theorem claim_C2_depth_bound_witness :
    demoTree.depth < maxDepthOf demoOptions :=
  (claim_C2_depth_bound demoEnv demoOptions "R" demoTree (by decide)
    rfl).2.1 demoTree (self_mem_treeNodes demoTree)

/-- C3: edge-direction asymmetry.  In every returned tree, the ids of
the children of a node form a sublist of the string entries of the
citations array when the node sits at depth 0, and of the references
array when it sits deeper; no other edge list contributes children. -/
theorem claim_C3_edge_asymmetry :
    ∀ (env : Env) (o : CitationTreeOptions) (pid : String) (depth : Nat)
      (visited : List String) (t : CitationTreeNode),
      ConsistentEnv env →
      buildCitationTree env pid o depth visited = some t →
      ∀ nd ∈ treeNodes t,
        List.Sublist (nd.references.map (fun c => c.paper.id))
          ((if nd.depth = 0 then nd.paper.metaCites.getD []
            else nd.paper.metaRefs.getD []).filterMap entryId) := by
  intro env o pid depth visited t hc hb nd hnd
  rcases buildAux_subcall (maxDepthOf o - depth) pid depth visited t hb nd hnd
    with ⟨n₂, pid₂, visited₂, _, hb₂⟩
  exact (buildAux_refs_ids hc hb₂).trans
    (validIdsOf_sublist nd.paper nd.depth o)

/-- Witness for C3: the root of demoTree sits at depth 0 and its
children ids are drawn from the citations array of R. -/
theorem claim_C3_edge_asymmetry_witness :
    List.Sublist (demoTree.references.map (fun c => c.paper.id))
      ((if demoTree.depth = 0 then demoTree.paper.metaCites.getD []
        else demoTree.paper.metaRefs.getD []).filterMap entryId) :=
  claim_C3_edge_asymmetry demoEnv demoOptions "R" 0 [] demoTree
    demoEnv_consistent rfl demoTree (self_mem_treeNodes demoTree)

/-- C5: branch bound by prefix truncation.  Every node of a returned
tree has at most maxReferencesPerLevel children (default 5), and the
list of its children ids is a sublist of validIdsOf, the prefix of the
candidate list truncated to maxReferencesPerLevel with non-string or
all-whitespace entries discarded; order is the candidate order and
failed or terminal children are simply absent. -/
theorem claim_C5_branch_bound :
    ∀ (env : Env) (o : CitationTreeOptions) (pid : String) (depth : Nat)
      (visited : List String) (t : CitationTreeNode),
      ConsistentEnv env →
      buildCitationTree env pid o depth visited = some t →
      ∀ nd ∈ treeNodes t,
        nd.references.length ≤ maxRefsOf o ∧
        List.Sublist (nd.references.map (fun c => c.paper.id))
          (validIdsOf nd.paper nd.depth o) := by
  intro env o pid depth visited t hc hb nd hnd
  rcases buildAux_subcall (maxDepthOf o - depth) pid depth visited t hb nd hnd
    with ⟨n₂, pid₂, visited₂, _, hb₂⟩
  exact ⟨buildAux_refs_len hb₂, buildAux_refs_ids hc hb₂⟩

/-- Witness for C5 at the root of demoTree. -/
theorem claim_C5_branch_bound_witness :
    demoTree.references.length ≤ maxRefsOf demoOptions :=
  (claim_C5_branch_bound demoEnv demoOptions "R" 0 [] demoTree
    demoEnv_consistent rfl demoTree (self_mem_treeNodes demoTree)).1

/-- C4: store-then-remote resolution with stale fallback.  A missing
row with a working remote resolves fresh (fetched and upserted).  A
stored row lacking its references array with a working remote also
resolves fresh.  A stored row with a nonempty references array is used
as is, without a fetch.  A missing row whose fetch throws makes the
branch return null without propagating the error.  A stale stored row
whose fetch throws is kept: the build proceeds with the stale record. -/
theorem claim_C4_resolution :
    ∀ (env : Env) (o : CitationTreeOptions) (pid : String) (depth : Nat)
      (visited : List String) (p q : DbPaper),
      (env.store pid = StoreResult.missing → env.fetchSave pid = some q →
        resolvePaper env pid = Resolution.fresh q) ∧
      (env.store pid = StoreResult.found p → missingRefs p = true →
        env.fetchSave pid = some q →
        resolvePaper env pid = Resolution.fresh q) ∧
      (env.store pid = StoreResult.found p → missingRefs p = false →
        resolvePaper env pid = Resolution.cached p) ∧
      (env.store pid = StoreResult.missing → env.fetchSave pid = none →
        buildCitationTree env pid o depth visited = none) ∧
      (env.store pid = StoreResult.found p → missingRefs p = true →
        env.fetchSave pid = none →
        resolvePaper env pid = Resolution.stale p ∧
        (depth < maxDepthOf o → visited.contains pid = false →
          ∃ t : CitationTreeNode,
            buildCitationTree env pid o depth visited = some t ∧
              t.paper = p)) := by
  intro env o pid depth visited p q
  refine ⟨resolvePaper_missing_ok, resolvePaper_stale_ok, resolvePaper_cached,
    ?_, ?_⟩
  · intro hs hf
    exact build_none_of_resolve_none
      (by rw [resolvePaper_missing_fail hs hf]; rfl)
  · intro hs hm hf
    have hres := resolvePaper_stale_fail hs hm hf
    refine ⟨hres, fun hd hv => ?_⟩
    exact build_proceeds_of_resolve_some hd hv (by rw [hres]; rfl)

/-- Witness for C4 on the fixture env4: the four interesting cases at
the ids S1 (stale row, fetch succeeds), S2 (missing row, fetch
succeeds), S3 (missing row, fetch throws) and S4 (stale row, fetch
throws). -/
theorem claim_C4_resolution_witness :
    resolvePaper env4 "S1" = Resolution.fresh pFresh1 ∧
    resolvePaper env4 "S2" = Resolution.fresh pFresh2 ∧
    buildCitationTree env4 "S3" demoOptions 0 [] = none ∧
    resolvePaper env4 "S4" = Resolution.stale pStale4 ∧
    (∃ t : CitationTreeNode,
      buildCitationTree env4 "S4" demoOptions 0 [] = some t ∧
        t.paper = pStale4) :=
  ⟨(claim_C4_resolution env4 demoOptions "S1" 0 [] pStale1 pFresh1).2.1
      rfl rfl rfl,
   (claim_C4_resolution env4 demoOptions "S2" 0 [] pStale1 pFresh2).1 rfl rfl,
   (claim_C4_resolution env4 demoOptions "S3" 0 [] pStale1 pFresh1).2.2.2.1
      rfl rfl,
   ((claim_C4_resolution env4 demoOptions "S4" 0 [] pStale4 pFresh1).2.2.2.2
      rfl rfl rfl).1,
   ((claim_C4_resolution env4 demoOptions "S4" 0 [] pStale4 pFresh1).2.2.2.2
      rfl rfl rfl).2 (by decide) rfl⟩

/-- C6: statistics correctness.  getTreeStatistics returns exactly the
flattened length as totalNodes, the greatest traversal depth as
maxDepth, the summed citation counts, and the summed child-list lengths
divided by the node count (0 when the count is 0); and when metrics are
requested every node of a returned tree carries totalNodes equal to one
plus the sum of the subtree counts of its children. -/
theorem claim_C6_statistics :
    (∀ t : CitationTreeNode,
      getTreeStatistics t =
        { totalNodes := (flattenTree t).length,
          maxDepth := treeHeight t,
          averageReferences :=
            if 0 < (flattenTree t).length then
              (sumRefLens t : ℚ) / ((flattenTree t).length : ℚ)
            else 0,
          totalCitations := sumCitations t }) ∧
    (∀ (env : Env) (o : CitationTreeOptions) (pid : String) (depth : Nat)
       (visited : List String) (t : CitationTreeNode),
       includeMetricsOf o = true →
       buildCitationTree env pid o depth visited = some t →
       ∀ nd ∈ treeNodes t,
         nd.totalNodes = some (1 + (nd.references.map countNodes).sum)) := by
  constructor
  · intro t
    rw [getTreeStatistics_eq, flattenTree_length]
    have hpos := countNodes_pos t
    rw [if_pos hpos]
  · intro env o pid depth visited t hm hb nd hnd
    exact buildAux_metrics hm (maxDepthOf o - depth) pid depth visited t
      hb nd hnd

/-- Witness for C6: the metrics tree demoTreeM is produced by a build
with includeMetrics and its root carries the correct subtree count. -/
theorem claim_C6_statistics_witness :
    demoTreeM.totalNodes =
      some (1 + (demoTreeM.references.map countNodes).sum) :=
  claim_C6_statistics.2 demoEnv metricsOptions "R" 0 [] demoTreeM rfl rfl
    demoTreeM (self_mem_treeNodes demoTreeM)

/-- C7 counterexample: on env7 the builder returns tree7, whose
flattened list has at position 5 an entry with parentId A while two
earlier entries (positions 1 and 4) both carry paperId A: the parentId
of an entry does not in general match exactly one earlier entry. -/
theorem claim_C7_counterexample :
    buildCitationTree env7 "R" demoOptions 0 [] = some tree7 ∧
    (flattenTree tree7)[5]? =
      some { paperId := "C", title := "c", depth := 3, parentId := some "A",
             citationCount := 0 } ∧
    (((flattenTree tree7).take 5).filter
      (fun e => e.paperId == "A")).length = 2 :=
  ⟨rfl, by decide, by decide⟩

/-- C7 (amended): flattenTree emits exactly one entry per node in
pre-order: the list starts with the root entry (absent parentId, the
root id and depth), expands each node before its children and the
children in sibling order, and every later entry carries a parentId
that names at least one preceding entry (an occurrence of its parent;
unique when all paper ids of the tree are distinct). -/
theorem claim_C7_flatten_preorder :
    ∀ t : CitationTreeNode,
      (flattenTree t).length = countNodes t ∧
      flattenTree t =
        { paperId := t.paper.id, title := t.paper.title, depth := t.depth,
          parentId := none, citationCount := t.paper.citation_count } ::
          flattenChildren t.references t.paper.id ∧
      (∀ i e, (flattenTree t)[i]? = some e → 0 < i →
        ∃ q, e.parentId = some q ∧
          q ∈ ((flattenTree t).take i).map FlatEntry.paperId) := by
  intro t
  refine ⟨flattenTree_length t, ?_, ?_⟩
  · cases t with
    | mk p refs d tn => rfl
  · intro i e he hi
    exact (linkedT t none i e he).2 hi

/-- Witness for C7: the entry at position 2 of the flattened demoTree
names a preceding entry as its parent. -/
theorem claim_C7_flatten_preorder_witness :
    ∃ q, ({ paperId := "B", title := "beta", depth := 2,
            parentId := some "A", citationCount := 4 } : FlatEntry).parentId =
        some q ∧
      q ∈ ((flattenTree demoTree).take 2).map FlatEntry.paperId :=
  (claim_C7_flatten_preorder demoTree).2.2 2
    { paperId := "B", title := "beta", depth := 2, parentId := some "A",
      citationCount := 4 } rfl (by decide)

theorem withRetryGo_attempts {T : Type} (req : Nat → ReqOutcome T) :
    ∀ (remaining i : Nat),
      (withRetryGo req remaining i).attemptsMade ≤ remaining := by
  intro remaining
  induction remaining with
  | zero => intro i; exact Nat.le_refl 0
  | succ remaining ih =>
      intro i
      rw [withRetryGo]
      cases req i with
      | ok t => exact Nat.le_add_left 1 remaining
      | fail e =>
          dsimp only
          cases hstop : (!shouldRetry e || decide (remaining = 0)) with
          | true =>
              rw [if_pos rfl]
              exact Nat.le_add_left 1 remaining
          | false =>
              rw [if_neg Bool.false_ne_true]
              have := ih (i + 1)
              dsimp only
              omega

theorem withRetryGo_sleeps {T : Type} (req : Nat → ReqOutcome T) :
    ∀ (remaining i : Nat) (s : Nat),
      s ∈ (withRetryGo req remaining i).sleeps →
      s ≤ 4000 ∨ ∃ (j : Nat) (e : AxiosFailure),
        req j = ReqOutcome.fail e ∧ e.retryAfterMs = some s := by
  intro remaining
  induction remaining with
  | zero => intro i s hs; simp [withRetryGo] at hs
  | succ remaining ih =>
      intro i s hs
      rw [withRetryGo] at hs
      cases hr : req i with
      | ok t => rw [hr] at hs; simp at hs
      | fail e =>
          rw [hr] at hs
          dsimp only at hs
          cases hstop : (!shouldRetry e || decide (remaining = 0)) with
          | true => rw [hstop, if_pos rfl] at hs; simp at hs
          | false =>
              rw [hstop, if_neg Bool.false_ne_true] at hs
              simp only [List.mem_cons] at hs
              rcases hs with rfl | hs
              · unfold backoffMs
                cases hra : e.retryAfterMs with
                | none => left; simp [hra]
                | some r => right; exact ⟨i, e, hr, by simp [hra]⟩
              · exact ih (i + 1) s hs

/-- C8: the retry policy of SemanticScholarAPI.withRetry with its fixed
attempt count of 3.  The request is invoked at most 3 times; a 4xx
status other than 429 (with no transient connection code attached, as a
completed HTTP response never carries one) fails immediately with no
retry and no sleep; two transient failures followed by a success yield
the success after exactly the two backoffs, each being the provider
retry-after when present and otherwise the exponential 1000 * 2 ^ i
capped at 4000; and every sleep ever performed is at most 4000 ms
unless it is a provider-supplied retry-after value. -/
theorem claim_C8_retry_policy :
    ∀ (T : Type) (req : Nat → ReqOutcome T) (e₀ e₁ : AxiosFailure) (t : T),
      (withRetry req 3).attemptsMade ≤ 3 ∧
      (req 0 = ReqOutcome.fail e₀ →
        (∃ s, e₀.status = some s ∧ 400 ≤ s ∧ s < 500 ∧ s ≠ 429) →
        (∀ c, e₀.code = some c → transientCodes.contains c = false) →
        withRetry req 3 = ⟨Except.error e₀, 1, []⟩) ∧
      (req 0 = ReqOutcome.fail e₀ → req 1 = ReqOutcome.fail e₁ →
        req 2 = ReqOutcome.ok t →
        shouldRetry e₀ = true → shouldRetry e₁ = true →
        withRetry req 3 =
          ⟨Except.ok t, 3,
           [e₀.retryAfterMs.getD (min 4000 (1000 * 2 ^ 0)),
            e₁.retryAfterMs.getD (min 4000 (1000 * 2 ^ 1))]⟩) ∧
      (∀ s ∈ (withRetry req 3).sleeps,
        s ≤ 4000 ∨ ∃ (j : Nat) (e : AxiosFailure),
          req j = ReqOutcome.fail e ∧ e.retryAfterMs = some s) := by
  intro T req e₀ e₁ t
  refine ⟨withRetryGo_attempts req 3 0, ?_, ?_,
    fun s hs => withRetryGo_sleeps req 3 0 s hs⟩
  · intro h0 hstat hcode
    have hsr : shouldRetry e₀ = false := by
      rcases hstat with ⟨s, hs, h400, h500, h429⟩
      unfold shouldRetry
      rw [hs]
      dsimp only
      have h1 : (some s == some 429) = false := by
        simp only [beq_eq_false_iff_ne, ne_eq, Option.some.injEq]
        exact h429
      have h2 : decide (500 ≤ s) = false := by
        simp only [decide_eq_false_iff_not]
        omega
      rw [h1, h2]
      cases hc : e₀.code with
      | none => rfl
      | some c =>
          dsimp only
          simp only [Bool.false_or]
          exact hcode c hc
    unfold withRetry
    rw [withRetryGo, h0]
    dsimp only
    rw [if_pos (by rw [hsr]; rfl)]
  · intro h0 h1 h2 hsr0 hsr1
    unfold withRetry
    rw [withRetryGo, h0]
    dsimp only
    rw [if_neg (by rw [hsr0]; simp)]
    rw [withRetryGo, h1]
    dsimp only
    rw [if_neg (by rw [hsr1]; simp)]
    rw [withRetryGo, h2]
    simp [backoffMs]

/-- Witness for C8: the 404 request fails at once with no sleeps, and
the flaky request (429 with retry-after 2000, then 500, then success)
succeeds on the third attempt after sleeping 2000 and 2000. -/
theorem claim_C8_retry_policy_witness :
    withRetry req404 3 = ⟨Except.error fail404, 1, []⟩ ∧
    withRetry reqFlaky 3 =
      ⟨Except.ok 7, 3,
       [fail429.retryAfterMs.getD (min 4000 (1000 * 2 ^ 0)),
        fail500.retryAfterMs.getD (min 4000 (1000 * 2 ^ 1))]⟩ :=
  ⟨(claim_C8_retry_policy Nat req404 fail404 fail500 7).2.1 rfl
      ⟨404, rfl, by omega, by omega, by omega⟩
      (fun c hc => by cases hc),
   (claim_C8_retry_policy Nat reqFlaky fail429 fail500 7).2.2.1 rfl rfl rfl
      (by decide) (by decide)⟩

/-- C9 counterexample: when the paper store throws on every lookup (the
database is unavailable), the service catches the error internally and
returns null, so the endpoint answers with the not-found body, not with
the generic failure body: the claim that a store failure is never
surfaced as the not-found response is false. -/
theorem claim_C9_counterexample :
    buildTreeController envErr "R" demoOptions =
      ControllerResponse.notFound
        "unable to build citation tree for this paper" ∧
    ¬ ∃ (m e : String), buildTreeController envErr "R" demoOptions =
        ControllerResponse.failure m e := by
  refine ⟨rfl, ?_⟩
  rintro ⟨m, e, h⟩
  have h₂ : ControllerResponse.notFound
      "unable to build citation tree for this paper" =
      ControllerResponse.failure m e := h
  cases h₂

/-- C9 (amended): for a nonempty paperId, the endpoint answers with the
fixed not-found body exactly when buildCitationTree yields no tree; and
this includes a store that throws at the root, because the service
converts every internal error of the build to a null tree.  The generic
failure body can only arise from an error thrown outside the builder. -/
theorem claim_C9_response_classes :
    ∀ (env : Env) (pid : String) (body : CitationTreeOptions),
      pid ≠ "" →
      ((buildTreeController env pid body =
          ControllerResponse.notFound
            "unable to build citation tree for this paper") ↔
        buildCitationTree env pid
          ⟨some (body.maxDepth.getD 5),
           some (body.maxReferencesPerLevel.getD 5),
           some (body.includeMetrics.getD false)⟩ 0 [] = none) ∧
      (env.store pid = StoreResult.err →
        buildTreeController env pid body =
          ControllerResponse.notFound
            "unable to build citation tree for this paper") := by
  intro env pid body hpid
  have hmain : (buildTreeController env pid body =
      ControllerResponse.notFound
        "unable to build citation tree for this paper") ↔
      buildCitationTree env pid
        ⟨some (body.maxDepth.getD 5),
         some (body.maxReferencesPerLevel.getD 5),
         some (body.includeMetrics.getD false)⟩ 0 [] = none := by
    unfold buildTreeController
    rw [if_neg hpid]
    cases hb : buildCitationTree env pid
        ⟨some (body.maxDepth.getD 5),
         some (body.maxReferencesPerLevel.getD 5),
         some (body.includeMetrics.getD false)⟩ 0 [] with
    | none => simp
    | some tree => simp
  refine ⟨hmain, fun hs => hmain.mpr ?_⟩
  exact build_none_of_resolve_none
    (by rw [resolvePaper_storeErr hs]; rfl)

/-- Witness for C9 at the throwing store. -/
theorem claim_C9_response_classes_witness :
    buildTreeController envErr "R" demoOptions =
      ControllerResponse.notFound
        "unable to build citation tree for this paper" :=
  (claim_C9_response_classes envErr "R" demoOptions (by decide)).2 rfl

/-- C10: in PaperRepository, the batch savePapers binds paper.abstract
to the title column and paper.title to the abstract column (parameter
positions two and three of an insert whose column list is id, title,
abstract, ...), while the single savePaper binds them correctly: on any
paper whose title differs from its abstract the two upserts write
different rows, swapping the two text fields. -/
theorem claim_C10_upsert_swap :
    (savePaperParams paper10).title = SqlValue.text "T" ∧
    (savePaperParams paper10).abstract = SqlValue.text "Ab" ∧
    (savePapersParams paper10).title = SqlValue.text "Ab" ∧
    (savePapersParams paper10).abstract = SqlValue.text "T" ∧
    savePaperParams paper10 ≠ savePapersParams paper10 :=
  ⟨rfl, rfl, rfl, rfl, by decide⟩
